import Mathlib

/-!
Verification of the oku e-paper display pipeline against its specification.

The C sources are shallowly embedded: byte buffers become functions
`Nat → Nat` holding values below 256, machine integers become `Nat`
(with explicit `% 65536` or `% 256` where the C code truncates),
C `int` return codes become `Int` (errors positive, warnings negative,
exactly as in oku_types.h), and a dereference of a null pointer is made
explicit as a distinguished `nullDeref` outcome.
-/

namespace Oku

/-! Error codes from oku_types.h (enum OKU_ERRNO).  Errors are positive,
warnings negative.  ERR_IO of the C enum is named errIoCode here. -/

def OK : Int := 0

def ERR_INPUT : Int := 1

def ERR_COMMS : Int := 2

def ERR_MEM : Int := 3

def errIoCode : Int := 4

def ERR_UNINITIALISED : Int := 5

def ERR_INVALID_UTF8 : Int := 8

def ERR_NOT_FOUND : Int := 8

def ERR_BUSY : Int := 7

def WARN_REPLACEMENT_CHAR : Int := -2

def WARN_MTBUFFER : Int := -3

def WARN_EOF : Int := -4

/-- Pointwise update of a byte buffer, modelling `buf[i] = v` on a C array. -/
def upd (f : Nat → Nat) (i v : Nat) : Nat → Nat := fun j => if j = i then v else f j

/-- C logical OR `a || b` applied to two int expressions: the result is the
int 1 when either operand is non-zero, else 0. -/
def cOr (a b : Int) : Int := if a ≠ 0 ∨ b ≠ 0 then 1 else 0

namespace Bitmap

/-! Embedding of src/bitmap.c. -/

/-- Pixel operation selector from bitmap.h. -/
inductive SET_PIXEL_MODE where
  | SET_PIXEL_BLACK
  | SET_PIXEL_WHITE
  | SET_PIXEL_TOGGLE
deriving DecidableEq

/-- The BITMAP structure of bitmap.h.  `buffer` is `none` when the C
pointer is NULL ("must be manually assigned" after bitmap_create). -/
structure BITMAP where
  buffer : Option (Nat → Nat)
  length : Nat
  pitch : Nat
  row_px : Nat

/-- Outcome of a C function returning an int status while mutating a
structure: `ok` carries the mutated value of a run that returned 0,
`err` is a non-zero return with the structure untouched, and
`nullDeref` marks a run that dereferenced a null pointer. -/
inductive CResult (α : Type) where
  | ok : α → CResult α
  | err : Nat → CResult α
  | nullDeref : CResult α

/-- Buffer of a successful result, for stating evaluation facts. -/
def okBuf : CResult BITMAP → Option (Nat → Nat)
  | .ok b => b.buffer
  | _ => none

/-- px_toggle from bitmap.c: `*byte ^= bit_mask`. -/
def px_toggle (byteVal mask : Nat) : Nat := byteVal ^^^ mask

/-- px_unset from bitmap.c.  The source reads `*byte &= !bit_mask` with a
logical (not bitwise) negation, so the factor is 0 whenever the mask is
non-zero. -/
def px_unset (byteVal mask : Nat) : Nat := byteVal &&& (if mask = 0 then 1 else 0)

/-- px_set from bitmap.c: `*byte |= bit_mask`. -/
def px_set (byteVal mask : Nat) : Nat := byteVal ||| mask

/-- xy_to_index from bitmap.c. -/
def xy_to_index (pitch x y : Nat) : Nat := y * pitch + x / 8

/-- x_to_bitmask from bitmap.c: `0x01 << (7 - (x % 8))`. -/
def x_to_bitmask (x : Nat) : Nat := 1 <<< (7 - x % 8)

/-- check_coordinates from bitmap.c. -/
def check_coordinates (width height x y : Nat) : Nat :=
  if x ≥ width ∨ y ≥ height then 1 else 0

/-- check_bitmap from bitmap.c: only the numeric fields are inspected,
the buffer pointer is not. -/
def check_bitmap (bmp : BITMAP) : Nat :=
  if bmp.length = 0 ∨ bmp.pitch = 0 ∨ bmp.row_px = 0 then 1 else 0

/-- Mode rewrite at the top of bitmap_modify_px (bitmap.c lines 158-161). -/
def remap_mode (mode : SET_PIXEL_MODE) (pixel_colour : Int) : SET_PIXEL_MODE :=
  if pixel_colour = 0 ∨ mode = .SET_PIXEL_BLACK then .SET_PIXEL_WHITE
  else if pixel_colour = 0 ∨ mode = .SET_PIXEL_WHITE then .SET_PIXEL_BLACK
  else mode

/-- Dispatch of the switch statement in bitmap_modify_px. -/
def apply_px (mode : SET_PIXEL_MODE) (byteVal mask : Nat) : Nat :=
  match mode with
  | .SET_PIXEL_TOGGLE => px_toggle byteVal mask
  | .SET_PIXEL_BLACK => px_unset byteVal mask
  | .SET_PIXEL_WHITE => px_set byteVal mask

/-- bitmap_create from bitmap.c: records the metrics and leaves the
buffer pointer NULL. -/
def bitmap_create (width height : Nat) : CResult BITMAP :=
  if width = 0 ∨ height = 0 then .err 1
  else
    let pitch := if width % 8 ≠ 0 then width / 8 + 1 else width / 8
    .ok { buffer := none, length := pitch * height, pitch := pitch, row_px := width }

/-- bitmap_modify_px from bitmap.c.  The buffer is dereferenced only
after both checks pass. -/
def bitmap_modify_px (bmp : BITMAP) (x y : Nat) (mode : SET_PIXEL_MODE)
    (pixel_colour : Int) : CResult BITMAP :=
  if check_bitmap bmp = 1 then .err 1
  else if check_coordinates bmp.row_px (bmp.length / bmp.pitch) x y = 1 then .err 2
  else
    match bmp.buffer with
    | none => .nullDeref
    | some f =>
      let idx := xy_to_index bmp.pitch x y
      let mask := x_to_bitmask x
      .ok { bmp with buffer := some (upd f idx (apply_px (remap_mode mode pixel_colour) (f idx) mask)) }

/-- bitmap_clear from bitmap.c. -/
def bitmap_clear (bmp : BITMAP) (black_colour : Int) : CResult BITMAP :=
  if black_colour ≠ 0 ∧ black_colour ≠ 1 then .err 1
  else if check_bitmap bmp = 1 then .err 2
  else
    match bmp.buffer with
    | none => .nullDeref
    | some f =>
      .ok { bmp with
            buffer := some (fun i => if i < bmp.length then (if black_colour ≠ 0 then 0x00 else 0xFF) else f i) }

/-- Mask `(uint8_t)~(0xFF >> bitnumber)` used by the first write of the
bitmap_copy loop: it keeps the top `b` bits of a byte. -/
def hiMask (b : Nat) : Nat := 255 ^^^ (255 >>> b)

/-- Mask `0xFF >> bitnumber` used by the second write of the bitmap_copy
loop: it keeps the low `8 - b` bits of a byte. -/
def loMask (b : Nat) : Nat := 255 >>> b

/-- The while loop of bitmap_copy (bitmap.c lines 257-275).  `src i` is
byte `i` of the rectangle buffer (the `in` pointer is advanced once per
iteration together with `count`), `o` is the offset of the `out` pointer
into the destination buffer, and `left` counts the iterations still to
run (the C guard `count < rectangle->length` holds exactly while
`left > 0`, where `left = rectangle->length - count`). -/
def copyLoop (src : Nat → Nat) (p P b : Nat) :
    Nat → (Nat → Nat) → Nat → Nat → (Nat → Nat)
  | 0, buf, _, _ => buf
  | left + 1, buf, o, count =>
      let inB := src count
      let buf1 := upd buf o ((inB >>> b) ||| (buf o &&& hiMask b))
      let buf2 := upd buf1 (o + 1) (((inB <<< (8 - b)) &&& 255) ||| (buf1 (o + 1) &&& loMask b))
      let o2 := if (count + 1) % p = 0 then (o + 1) + (P - p) else o + 1
      copyLoop src p P b left buf2 o2 (count + 1)

/-- bitmap_copy from bitmap.c.  The assignments
`uint16_t in_width = rectangle->row_px` (and the three like it) truncate
a size_t to 16 bits, hence the `% 65536`. -/
def bitmap_copy (bmp rectangle : BITMAP) (xmin ymin : Nat) : CResult BITMAP :=
  if check_bitmap bmp = 1 ∨ check_bitmap rectangle = 1 then .err 1
  else
    let in_width := rectangle.row_px % 65536
    let in_height := rectangle.length / rectangle.pitch % 65536
    let out_width := bmp.row_px % 65536
    let out_height := bmp.length / bmp.pitch % 65536
    if xmin + in_width ≥ out_width ∨ ymin + in_height ≥ out_height then .err 2
    else
      match bmp.buffer, rectangle.buffer with
      | some outB, some inB =>
        .ok { bmp with
              buffer := some (copyLoop inB rectangle.pitch bmp.pitch (xmin % 8) rectangle.length
                outB (xy_to_index bmp.pitch xmin ymin) 0) }
      | _, _ => .nullDeref

/-- Pixel read in the PBM convention of bitmap.c: the most significant
bit of `buf[y * pitch + x / 8]` holds the pixel nearest the row origin. -/
def getPx (f : Nat → Nat) (pitch x y : Nat) : Nat :=
  (f (y * pitch + x / 8) >>> (7 - x % 8)) &&& 1

/-! Closed forms for the buffer produced by the bitmap_copy loop.  With
`p` the rectangle pitch, `P` the destination pitch, `b` the bit
misalignment and `base` the starting offset, iteration `i` of the loop
writes the destination byte `Adr i` and spills into `Adr i + 1`. -/

/-- Destination offset written first by loop iteration `i`: row `i / p`
of the rectangle, byte `i % p` of that row. -/
def Adr (p P base i : Nat) : Nat := base + P * (i / p) + i % p

/-- Final value of the byte first-written by iteration `i`: the top
`8 - b` bits of source byte `i` land in its low part; its top `b` bits
come from the previous source byte's spill, or from the original
destination byte when `i` starts a row. -/
def firstW (src orig : Nat → Nat) (p P b base i : Nat) : Nat :=
  (src i >>> b) |||
    (if i % p = 0 then orig (Adr p P base i) &&& hiMask b
     else (src (i - 1) <<< (8 - b)) &&& 255)

/-- Final value of the spill byte after row `r` of the rectangle: the
low `b` bits of the row's last source byte land in its top part, the
rest of the destination byte is preserved. -/
def spillW (src orig : Nat → Nat) (p P b base r : Nat) : Nat :=
  ((src (p * r + p - 1) <<< (8 - b)) &&& 255) ||| (orig (base + P * r + p) &&& loMask b)

/-- Intermediate value of the byte the loop is about to first-write at
iteration `count` (mid-row): it has already received the spill of
iteration `count - 1`. -/
def partW (src orig : Nat → Nat) (b j count : Nat) : Nat :=
  ((src (count - 1) <<< (8 - b)) &&& 255) ||| (orig j &&& loMask b)

/-- The destination buffer after `count` iterations of the bitmap_copy
loop, in closed form.  A byte at offset `base + P * r + c` with
`r < hh` (the rectangle height) and `c ≤ p` is classified as
fully-written, spilled-into, or untouched, according to `count`. -/
def midBuf (src orig : Nat → Nat) (p P hh b base count : Nat) : Nat → Nat := fun j =>
  if base ≤ j ∧ (j - base) % P ≤ p ∧ (j - base) / P < hh then
    let r := (j - base) / P
    let c := (j - base) % P
    if c < p then
      if p * r + c < count then firstW src orig p P b base (p * r + c)
      else if p * r + c = count ∧ count % p ≠ 0 then partW src orig b j count
      else orig j
    else
      if p * r + p ≤ count then spillW src orig p P b base r
      else orig j
  else orig j

/-! Concrete bitmaps used to evaluate the bitmap operations. -/

/-- Destination of the equal-size blit: 8 x 2 px, all pixels white. -/
def c1Dst : BITMAP := ⟨some (fun _ => 0), 2, 1, 8⟩

/-- Source of the equal-size blit: 8 x 2 px, all pixels black. -/
def c1Src : BITMAP := ⟨some (fun _ => 255), 2, 1, 8⟩

/-- An 8 x 1 px bitmap whose single byte is 0xFF. -/
def c3Fb : BITMAP := ⟨some (fun _ => 255), 1, 1, 8⟩

/-- The bitmap produced by `bitmap_create 16 2`: metrics set, buffer NULL. -/
def freshFb : BITMAP := ⟨none, 4, 2, 16⟩

/-- A 16 x 3 px destination, all pixels black (every byte 0xFF). -/
def c2Dst : BITMAP := ⟨some (fun _ => 255), 6, 2, 16⟩

/-- A 3 x 1 px source (pitch 1, so bits 3..7 of its single byte are row
padding): three black pixels, padding bits zero (byte 0xE0). -/
def c2Src : BITMAP := ⟨some (fun _ => 224), 1, 1, 3⟩

end Bitmap

namespace Utf8

/-! Embedding of utf8.c. -/

/-- Replacement codepoint CHAR_INVALID from utf8.c. -/
def CHAR_INVALID : Nat := 0xFFFD

/-- A C stdio stream: the bytes still to be read plus the feof flag,
which is raised by a read that runs past the end of the stream. -/
structure CFile where
  data : List Nat
  eof : Bool
deriving DecidableEq

/-- fread of `n` single-byte items: returns the item count actually
read, the bytes, and the advanced stream. -/
def fread (src : CFile) (n : Nat) : Nat × List Nat × CFile :=
  let taken := src.data.take n
  (taken.length, taken, ⟨src.data.drop n, src.eof || decide (taken.length < n)⟩)

/-- check_eof from utf8.c: WARN_EOF when feof is set, OK otherwise. -/
def check_eof (textfile : CFile) : Int :=
  if textfile.eof then WARN_EOF else OK

/-- seq_nbytes from utf8.c: sequence length from the top five bits of
the lead byte, through the 32-entry lookup table. -/
def seq_nbytes (first : Nat) : Nat :=
  [1, 1, 1, 1, 1, 1, 1, 1, 1, 1, 1, 1, 1, 1, 1, 1,
   0, 0, 0, 0, 0, 0, 0, 0, 2, 2, 2, 2, 3, 3, 4, 0].getD ((first % 256) >>> 3) 0

/-- file_read from utf8.c.  On a short read the source returns
`check_eof(src) || ERR_IO`: a C logical OR, whose value is the int 1
whenever either operand is non-zero.  The bytes are stored from the
start of `dest` (the caller does not advance the pointer). -/
def file_read (src : CFile) (dest : List Nat) (n : Nat) : Int × List Nat × CFile :=
  let (got, bytes, src') := fread src n
  let dest' := bytes ++ dest.drop got
  if got < n then (cOr (check_eof src') errIoCode, dest', src')
  else (OK, dest', src')

/-- ftoutf8 from utf8.c: read the lead byte, derive the length, read the
continuation bytes.  The second file_read passes `dest`, not
`dest + 1`, exactly as in the source.  The returned Nat is `*n`; the
caller initialises it to 0 and an early return leaves it 0. -/
def ftoutf8 (src : CFile) (dest : List Nat) : Int × List Nat × Nat × CFile :=
  let (e1, d1, s1) := file_read src dest 1
  if e1 ≠ 0 then (e1, d1, 0, s1)
  else
    let n := seq_nbytes (d1.headD 0)
    if n > 1 ∧ n ≤ 4 then
      let (e2, d2, s2) := file_read s1 d1 (n - 1)
      (e2, d2, n, s2)
    else if n ≠ 1 then (ERR_INVALID_UTF8, d1, n, s1)
    else (OK, d1, n, s1)

/-- utf8tocp from utf8.c: the switch on the sequence length, OR-ing the
payload bits into `*out` (which the case-0/default arm overwrites with
CHAR_INVALID). -/
def utf8tocp (utf8 : List Nat) (len : Nat) (out0 : Nat) : Int × Nat :=
  match len with
  | 1 => (OK, out0 ||| (utf8.getD 0 0 &&& 0x7F))
  | 2 => (OK, out0 ||| ((utf8.getD 0 0 &&& 0x1F) <<< 6) ||| (utf8.getD 1 0 &&& 0x3F))
  | 3 => (OK, out0 ||| ((utf8.getD 0 0 &&& 0x0F) <<< 12) ||| ((utf8.getD 1 0 &&& 0x3F) <<< 6) |||
          (utf8.getD 2 0 &&& 0x3F))
  | 4 => (OK, out0 ||| ((utf8.getD 0 0 &&& 0x07) <<< 18) ||| ((utf8.getD 1 0 &&& 0x3F) <<< 12) |||
          ((utf8.getD 2 0 &&& 0x3F) <<< 6) ||| (utf8.getD 3 0 &&& 0x3F))
  | _ => (WARN_REPLACEMENT_CHAR, CHAR_INVALID)

/-- utf8_ftocp from utf8.c.  `out0` is the value of `*out` on entry;
the second component of the result is its value on return. -/
def utf8_ftocp (src : CFile) (out0 : Nat) : Int × Nat × CFile :=
  let r := ftoutf8 src [0x00, 0x00, 0x00, 0x00]
  if r.1 > 0 then (r.1, out0, r.2.2.2)
  else
    let (e2, outv) := utf8tocp r.2.1 r.2.2.1 out0
    (e2, outv, r.2.2.2)

end Utf8

namespace Cpq

/-! Embedding of cpqueue.c.  Node memory is made explicit: a heap maps
addresses to allocated nodes, and the queue stores addresses. -/

/-- CP_NODE from cpqueue.h. -/
structure CP_NODE where
  unicode : Nat
  next : Option Nat
deriving DecidableEq

/-- Allocator state: allocated nodes and the next fresh address. -/
structure CPHeap where
  mem : Nat → Option CP_NODE
  fresh : Nat

/-- CP_QUEUE from cpqueue.h.  `head`/`tail` are node addresses, `none`
standing for a NULL pointer. -/
structure CP_QUEUE where
  count : Nat
  head : Option Nat
  tail : Option Nat
deriving DecidableEq

/-- cpq_create from cpqueue.c. -/
def cpq_create : CP_QUEUE := ⟨0, none, none⟩

/-- cpq_enqueue from cpqueue.c.  A `none` result marks the dereference
of a null or dangling tail pointer. -/
def cpq_enqueue (hp : CPHeap) (cpq : CP_QUEUE) (unicode : Nat) :
    Option (CPHeap × CP_QUEUE) :=
  let a := hp.fresh
  let hp1 : CPHeap := ⟨fun i => if i = a then some ⟨unicode, none⟩ else hp.mem i, a + 1⟩
  if cpq.count = 0 then
    some (hp1, ⟨cpq.count + 1, some a, some a⟩)
  else
    match cpq.tail with
    | none => none
    | some t =>
      match hp1.mem t with
      | none => none
      | some tn =>
        some (⟨fun i => if i = t then some ⟨tn.unicode, some a⟩ else hp1.mem i, hp1.fresh⟩,
              ⟨cpq.count + 1, cpq.head, some a⟩)

/-- cpq_dequeue from cpqueue.c.  `out0` is the caller's `*out` on
entry; the result carries the return code, the heap, the queue and the
final `*out`.  The source line `cpq->tail == NULL;` after the decrement
is a comparison, not an assignment, and therefore has no effect: the
embedding mirrors that by leaving `tail` untouched. -/
def cpq_dequeue (hp : CPHeap) (cpq : CP_QUEUE) (out0 : Option Nat) :
    Option (Int × CPHeap × CP_QUEUE × Option Nat) :=
  if cpq.count = 0 then some (WARN_MTBUFFER, hp, cpq, out0)
  else
    match cpq.head with
    | none => none
    | some a =>
      match hp.mem a with
      | none => none
      | some n => some (OK, hp, ⟨cpq.count - 1, n.next, cpq.tail⟩, some a)

/-- Empty heap. -/
def emptyHeap : CPHeap := ⟨fun _ => none, 0⟩

/-- Queue state after enqueuing 42 into a fresh queue and dequeuing it
again. -/
def qAfterRoundTrip : Option CP_QUEUE :=
  (cpq_enqueue emptyHeap cpq_create 42).bind fun hq =>
    (cpq_dequeue hq.1 hq.2 none).map fun r => r.2.2.1

end Cpq

namespace Cache

/-! Embedding of cache.c.  Chain nodes live in an explicit heap so that
the separately stored head and tail pointers of each bucket list can be
modelled faithfully. -/

/-- Entry count of the bucket table (TABLE_SIZE in cache.c). -/
def TABLE_SIZE : Nat := 255

/-- NODE from cache.c.  `render` is the GLYPH pointer, abstracted to an
identifier. -/
structure NODE where
  unicode : Nat
  render : Nat
  hits : Nat
  next : Option Nat
deriving DecidableEq

/-- LIST from cache.c: head and tail node addresses of one bucket. -/
structure GLIST where
  head : Option Nat
  tail : Option Nat
deriving DecidableEq

/-- Allocator state for chain nodes. -/
structure GHEAP where
  mem : Nat → Option NODE
  fresh : Nat

/-- CACHE from cache.c.  `fontname` is the pointer value, abstracted to
an identifier with 0 for NULL. -/
structure CACHE where
  table : Nat → GLIST
  fontname : Nat
  fontsize : Nat

/-- nullptr from cache.c: ERR_UNINITIALISED on a NULL pointer, OK
otherwise. -/
def nullptrScan (isNull : Bool) : Int := if isNull then ERR_UNINITIALISED else OK

/-- cpsame from cache.c: OK on a match, ERR_NOT_FOUND otherwise. -/
def cpsame (cp1 cp2 : Nat) : Int := if cp1 ≠ cp2 then ERR_NOT_FOUND else OK

/-- hash from cache.c.  The source computes `unicode && 0xFF` with a
logical (not bitwise) AND, so the bucket is 1 for every non-zero
codepoint and 0 for codepoint 0. -/
def hash (unicode : Nat) : Nat := if unicode ≠ 0 ∧ (0xFF : Nat) ≠ 0 then 1 else 0

/-- ncreate from cache.c: allocate and initialise a fresh node. -/
def ncreate (hp : GHEAP) (unicode newglyph : Nat) : GHEAP × Nat :=
  let a := hp.fresh
  (⟨fun i => if i = a then some ⟨unicode, newglyph, 0, none⟩ else hp.mem i, a + 1⟩, a)

/-- lenqueue from cache.c.  The source immediately writes
`in->tail->next = newtail` without treating the empty list, so on a
bucket whose tail is NULL the write dereferences a null pointer (the
`none` result); the head pointer is never assigned. -/
def lenqueue (hp : GHEAP) (l : GLIST) (unicode : Nat) (new : Nat) :
    Option (GHEAP × GLIST) :=
  let (hp1, a) := ncreate hp unicode new
  match l.tail with
  | none => none
  | some t =>
    match hp1.mem t with
    | none => none
    | some tn =>
      some (⟨fun i => if i = t then some ⟨tn.unicode, tn.render, tn.hits, some a⟩ else hp1.mem i,
             hp1.fresh⟩,
            ⟨l.head, some a⟩)

/-- nsearch from cache.c: walk the chain comparing codepoints.  The walk
is bounded by the number of allocated nodes, which dominates the length
of any acyclic chain. -/
def nsearch (hp : GHEAP) (search : Nat) : Nat → Option Nat → Option Nat
  | _, none => none
  | 0, some _ => none
  | fuel + 1, some a =>
    match hp.mem a with
    | none => none
    | some n => if cpsame n.unicode search = 0 then some n.render else nsearch hp search fuel n.next

/-- lsearch from cache.c. -/
def lsearch (hp : GHEAP) (l : GLIST) (search : Nat) : Option Nat :=
  nsearch hp search hp.fresh l.head

/-- cache_create from cache.c: every bucket starts with NULL head and
tail. -/
def cache_create (fontname fontsize : Nat) : CACHE :=
  ⟨fun _ => ⟨none, none⟩, fontname, fontsize⟩

/-- cache_search from cache.c. -/
def cache_search (hp : GHEAP) (c : CACHE) (search : Nat) : Option Nat :=
  lsearch hp (c.table (hash search)) search

/-- cache_insert from cache.c. -/
def cache_insert (hp : GHEAP) (c : CACHE) (unicode : Nat) (new : Nat) :
    Option (GHEAP × CACHE) :=
  (lenqueue hp (c.table (hash unicode)) unicode new).map fun r =>
    (r.1, { c with table := fun i => if i = hash unicode then r.2 else c.table i })

/-- ldelete_head from cache.c: ndelete zeroes the fields of the old
head node (the node itself is not freed) and the tail is nulled when the
list becomes empty. -/
def ldelete_head (hp : GHEAP) (l : GLIST) : GHEAP × GLIST :=
  match l.head with
  | none => (hp, l)
  | some a =>
    let new_head := match hp.mem a with
      | some n => n.next
      | none => none
    let hp' : GHEAP := ⟨fun i => if i = a then some ⟨0, 0, 0, none⟩ else hp.mem i, hp.fresh⟩
    (hp', ⟨new_head, if new_head = none then none else l.tail⟩)

/-- The while loop of ldestroy from cache.c, with explicit fuel: `none`
means the given number of iterations did not reach the loop exit.  The
guard of the source is `!nullptr(delete)` where `delete` is the address
`&cache->table[i]` of the list structure itself, which is never NULL,
so the guard is evaluated on a non-null pointer. -/
def ldestroyFuel : Nat → GHEAP × GLIST → Option (GHEAP × GLIST)
  | 0, _ => none
  | fuel + 1, s =>
    if nullptrScan false = 0 then ldestroyFuel fuel (ldelete_head s.1 s.2)
    else some s

/-- The bucket sweep of cache_destroy from cache.c. -/
def destroyBuckets (fuel : Nat) : GHEAP → CACHE → List Nat → Option (GHEAP × CACHE)
  | hp, c, [] => some (hp, { c with fontname := 0, fontsize := 0 })
  | hp, c, i :: is =>
    (ldestroyFuel fuel (hp, c.table i)).bind fun s =>
      destroyBuckets fuel s.1 { c with table := fun j => if j = i then s.2 else c.table j } is

/-- cache_destroy from cache.c, with explicit fuel bounding the number
of iterations each bucket's ldestroy loop may take. -/
def cache_destroy (fuel : Nat) (hp : GHEAP) (c : CACHE) : Option (GHEAP × CACHE) :=
  destroyBuckets fuel hp c (List.range TABLE_SIZE)

/-- Fresh node heap. -/
def emptyGHeap : GHEAP := ⟨fun _ => none, 0⟩

end Cache

namespace Epd

/-! Embedding of epd_ws29bw.c (the EPD-handle implementation).  The SPI
transport is abstracted to a trace of transfers: each write_command and
write_data call appends one event (the DC/CS pin framing surrounding a
transfer is part of the event), and the transport itself always
succeeds, which is the claim's regime. -/

/-- Command opcodes from enum COMMAND of epd_ws29bw.c (the ones the
display path uses). -/
def DISPLAY_UPDATE_CONTROL_2 : Nat := 0x22

def MASTER_ACTIVATION : Nat := 0x20

def WRITE_RAM : Nat := 0x24

def SET_RAM_X_ADDRESS_COUNTER : Nat := 0x4E

def SET_RAM_Y_ADDRESS_COUNTER : Nat := 0x4F

def TERMINATE_FRAME_READ_WRITE : Nat := 0xFF

/-- One SPI transfer: a command byte with the DC pin low, or a data
block with the DC pin high. -/
inductive Ev where
  | command : Nat → Ev
  | data : List Nat → Ev
deriving DecidableEq

/-- write_command from epd_ws29bw.c: the command byte is masked to
8 bits before the transfer. -/
def write_command (c : Nat) : List Ev := [.command (c % 256)]

/-- write_data from epd_ws29bw.c. -/
def write_data (bs : List Nat) : List Ev := [.data bs]

/-- calculate_pitch from epd_ws29bw.c. -/
def calculate_pitch (width : Nat) : Nat :=
  if width % 8 = 0 then width / 8 else width / 8 + 1

/-- Bitwise inversion of one byte, `(uint8_t)~(*bitmap)` in ram_write:
every one of the eight bits is flipped. -/
def invByte (v : Nat) : Nat := (v % 256) ^^^ 255

/-- ram_set_cursor from epd_ws29bw.c. -/
def ram_set_cursor (x y : Nat) : List Ev :=
  write_command SET_RAM_X_ADDRESS_COUNTER ++ write_data [(x >>> 3) % 256] ++
  write_command SET_RAM_Y_ADDRESS_COUNTER ++ write_data [y % 256, (y >>> 8) % 256]

/-- Inner loop of ram_write: one write_data transfer per byte of the
row, each byte inverted, the bitmap pointer (`idx`) advancing by one. -/
def ramWriteBytes (bm : List Nat) : Nat → Nat → List Ev
  | _, 0 => []
  | idx, k + 1 => write_data [invByte (bm.getD idx 0)] ++ ramWriteBytes bm (idx + 1) k

/-- Outer loop of ram_write: rows `y, y+1, ...` while `y < height`,
which holds exactly while `rows > 0` for `rows = height - y`; the bitmap
pointer carries over from row to row. -/
def ramWriteRows (bm : List Nat) (pitch : Nat) : Nat → Nat → Nat → List Ev
  | _, _, 0 => []
  | idx, y, rows + 1 =>
    ram_set_cursor 0 y ++ write_command WRITE_RAM ++ ramWriteBytes bm idx pitch ++
    ramWriteRows bm pitch (idx + pitch) (y + 1) rows

/-- ram_write from epd_ws29bw.c. -/
def ram_write (bm : List Nat) (width height : Nat) : List Ev :=
  ramWriteRows bm (calculate_pitch width) 0 0 height

/-- ram_load from epd_ws29bw.c: display-update control, master
activation and frame termination (the busy-wait poll performs no
transfers). -/
def ram_load : List Ev :=
  write_command DISPLAY_UPDATE_CONTROL_2 ++ write_data [0xC4] ++
  write_command MASTER_ACTIVATION ++ write_command TERMINATE_FRAME_READ_WRITE

/-- The EPD device handle of epd.h (communication parameters omitted:
they do not influence the transfer trace). -/
structure EPD where
  width : Nat
  height : Nat

/-- The Waveshare 2.9 inch device handle built by epd_create. -/
def epd_create : EPD := ⟨128, 296⟩

/-- epd_display from epd_ws29bw.c: validate the bitmap length against
`pitch * height`, then write the RAM image and trigger the refresh. -/
def epd_display (epd : EPD) (bitmap : List Nat) : Int × List Ev :=
  let pitch := calculate_pitch epd.width
  if bitmap.length ≠ pitch * epd.height then (ERR_INPUT, [])
  else (OK, ram_write bitmap epd.width epd.height ++ ram_load)

/-- Specification-shaped trace of one row `y`: cursor to `(0, y)`, the
write-RAM command, then the row's `pitch` bytes
`bm[y*pitch], ..., bm[y*pitch + pitch - 1]`, each bit-inverted. -/
def rowTrace (bm : List Nat) (pitch y : Nat) : List Ev :=
  ram_set_cursor 0 y ++ write_command WRITE_RAM ++
  (List.range pitch).map fun x => .data [invByte (bm.getD (y * pitch + x) 0)]

/-- Specification-shaped trace of the whole image: the rows in order. -/
def displayTrace (bm : List Nat) (pitch height : Nat) : List Ev :=
  (List.range height).flatMap fun y => rowTrace bm pitch y

end Epd

/-! Theorems. -/

theorem upd_same (f : Nat → Nat) (i v : Nat) : upd f i v i = v := by
  simp [upd]

theorem upd_other (f : Nat → Nat) (i v j : Nat) (h : j ≠ i) : upd f i v j = f j := by
  simp [upd, h]

namespace Bitmap

theorem div_mod_decomp (m r c : Nat) (hm : 0 < m) (hc : c < m) :
    (m * r + c) / m = r ∧ (m * r + c) % m = c := by
  constructor
  · rw [Nat.mul_add_div hm, Nat.div_eq_of_lt hc, Nat.add_zero]
  · rw [Nat.mul_add_mod, Nat.mod_eq_of_lt hc]

theorem testBit_255 (k : Nat) : (255 : Nat).testBit k = decide (k < 8) := by
  rw [show (255 : Nat) = 2 ^ 8 - 1 from rfl, Nat.testBit_two_pow_sub_one]

theorem testBit_loMask (b k : Nat) : (loMask b).testBit k = decide (b + k < 8) := by
  rw [loMask, Nat.testBit_shiftRight, testBit_255]

theorem testBit_hiMask (b k : Nat) :
    (hiMask b).testBit k = (decide (k < 8) ^^ decide (b + k < 8)) := by
  rw [hiMask, Nat.testBit_xor, testBit_255, Nat.testBit_shiftRight, testBit_255]

theorem byte_testBit_high (v t : Nat) (hv : v < 256) (ht : 8 ≤ t) : v.testBit t = false := by
  apply Nat.testBit_lt_two_pow
  calc v < 256 := hv
    _ = 2 ^ 8 := rfl
    _ ≤ 2 ^ t := Nat.pow_le_pow_right (by omega) ht

theorem and1_eq_testBit (a t : Nat) : (a >>> t) &&& 1 = if a.testBit t then 1 else 0 := by
  rw [Nat.and_one_is_mod, Nat.shiftRight_eq_div_pow, Nat.testBit_to_div_mod]
  rcases Nat.mod_two_eq_zero_or_one (a / 2 ^ t) with h | h <;> simp [h]

theorem and_or_right (a c m : Nat) : (a ||| c) &&& m = (a &&& m) ||| (c &&& m) := by
  apply Nat.eq_of_testBit_eq
  intro k
  simp only [Nat.testBit_and, Nat.testBit_or]
  cases a.testBit k <;> cases c.testBit k <;> cases m.testBit k <;> rfl

theorem lo_and_hi_eq_zero (x b : Nat) : x &&& loMask b &&& hiMask b = 0 := by
  apply Nat.eq_of_testBit_eq
  intro k
  simp only [Nat.testBit_and, testBit_loMask, testBit_hiMask, Nat.zero_testBit]
  by_cases h1 : b + k < 8 <;> by_cases h2 : k < 8 <;> simp [h1, h2] <;> omega

theorem shifted_and_hi (x b : Nat) :
    (x <<< (8 - b)) &&& 255 &&& hiMask b = (x <<< (8 - b)) &&& 255 := by
  apply Nat.eq_of_testBit_eq
  intro k
  simp only [Nat.testBit_and, Nat.testBit_shiftLeft, testBit_255, testBit_hiMask]
  by_cases h1 : 8 - b ≤ k <;> by_cases h2 : k < 8 <;> by_cases h3 : b + k < 8 <;>
    simp [h1, h2, h3] <;> omega

theorem partW_and_hiMask (src orig : Nat → Nat) (b j count : Nat) :
    partW src orig b j count &&& hiMask b = (src (count - 1) <<< (8 - b)) &&& 255 := by
  rw [partW, and_or_right, shifted_and_hi, lo_and_hi_eq_zero, Nat.or_zero]

theorem midBuf_at (src orig : Nat → Nat) (p P hh b base count r c : Nat)
    (hPc : c < P) (hcp : c ≤ p) (hr : r < hh) :
    midBuf src orig p P hh b base count (base + P * r + c) =
      if c < p then
        (if p * r + c < count then firstW src orig p P b base (p * r + c)
         else if p * r + c = count ∧ count % p ≠ 0 then partW src orig b (base + P * r + c) count
         else orig (base + P * r + c))
      else
        (if p * r + p ≤ count then spillW src orig p P b base r
         else orig (base + P * r + c)) := by
  have hsub : base + P * r + c - base = P * r + c := by omega
  have hdec := div_mod_decomp P r c (by omega) hPc
  simp only [midBuf, hsub, hdec.1, hdec.2]
  rw [if_pos ⟨by omega, hcp, hr⟩]

theorem midBuf_out (src orig : Nat → Nat) (p P hh b base count j : Nat)
    (hreg : ¬ (base ≤ j ∧ (j - base) % P ≤ p ∧ (j - base) / P < hh)) :
    midBuf src orig p P hh b base count j = orig j := by
  simp only [midBuf]
  rw [if_neg hreg]

/-- One iteration of the bitmap_copy loop body transforms the closed
form for `count` processed bytes into the closed form for `count + 1`. -/
theorem copyStep (src orig : Nat → Nat) (p P hh b base count : Nat)
    (hp : 0 < p) (hpP : p < P) (hcount : count < p * hh) :
    (upd
      (upd (midBuf src orig p P hh b base count)
        (Adr p P base count)
        ((src count >>> b) |||
          (midBuf src orig p P hh b base count (Adr p P base count) &&& hiMask b)))
      (Adr p P base count + 1)
      (((src count <<< (8 - b)) &&& 255) |||
        ((upd (midBuf src orig p P hh b base count)
            (Adr p P base count)
            ((src count >>> b) |||
              (midBuf src orig p P hh b base count (Adr p P base count) &&& hiMask b)))
          (Adr p P base count + 1) &&& loMask b)))
    = midBuf src orig p P hh b base (count + 1) := by
  have hdm : p * (count / p) + count % p = count := Nat.div_add_mod count p
  have hc0p : count % p < p := Nat.mod_lt _ hp
  have hqh : count / p < hh := Nat.div_lt_of_lt_mul hcount
  have hAdr : Adr p P base count = base + P * (count / p) + count % p := rfl
  -- value of the intermediate buffer at the first-write target
  have hMjA : midBuf src orig p P hh b base count (Adr p P base count) =
      if count % p = 0 then orig (Adr p P base count)
      else partW src orig b (Adr p P base count) count := by
    rw [hAdr, midBuf_at src orig p P hh b base count _ _ (by omega) (by omega) hqh]
    rw [if_pos hc0p, if_neg (by omega)]
    by_cases hc00 : count % p = 0
    · rw [if_neg (by simp [hc00]), if_pos hc00]
    · rw [if_pos ⟨hdm, hc00⟩, if_neg hc00]
  -- value of the intermediate buffer at the spill target
  have hMjB : midBuf src orig p P hh b base count (Adr p P base count + 1) =
      orig (Adr p P base count + 1) := by
    have hAdrB : Adr p P base count + 1 = base + P * (count / p) + (count % p + 1) := by
      rw [hAdr]; omega
    rw [hAdrB, midBuf_at src orig p P hh b base count _ _ (by omega) (by omega) hqh]
    by_cases hsp : count % p + 1 < p
    · rw [if_pos hsp, if_neg (by omega), if_neg (by omega)]
    · rw [if_neg hsp, if_neg (by omega)]
  -- the first write produces the final value of its byte
  have hV1 : ((src count >>> b) |||
      (midBuf src orig p P hh b base count (Adr p P base count) &&& hiMask b)) =
      firstW src orig p P b base count := by
    rw [hMjA, firstW]
    by_cases hc00 : count % p = 0
    · rw [if_pos hc00, if_pos hc00]
    · rw [if_neg hc00, if_neg hc00, partW_and_hiMask]
  funext j
  by_cases hjB : j = Adr p P base count + 1
  · subst hjB
    rw [upd_same, upd_other _ _ _ _ (by omega), hMjB]
    have hAdrB : Adr p P base count + 1 = base + P * (count / p) + (count % p + 1) := by
      rw [hAdr]; omega
    rw [hAdrB, midBuf_at src orig p P hh b base (count + 1) _ _ (by omega) (by omega) hqh]
    by_cases hsp : count % p + 1 < p
    · have hm1 := div_mod_decomp p (count / p) (count % p + 1) hp hsp
      rw [show p * (count / p) + (count % p + 1) = count + 1 from by omega] at hm1
      rw [if_pos hsp, if_neg (by omega), if_pos ⟨by omega, by omega⟩]
      simp only [partW, Nat.add_sub_cancel]
    · have hpfull : count % p + 1 = p := by omega
      rw [if_neg hsp, if_pos (by omega)]
      simp only [spillW, partW, Nat.add_sub_cancel]
      have h1 : p * (count / p) + p - 1 = count := by omega
      have h2 : base + P * (count / p) + p = base + P * (count / p) + (count % p + 1) := by omega
      rw [h1, h2]
  · by_cases hjA : j = Adr p P base count
    · subst hjA
      rw [upd_other _ _ _ _ (by omega), upd_same, hV1, hAdr,
        midBuf_at src orig p P hh b base (count + 1) _ _ (by omega) (by omega) hqh]
      rw [if_pos hc0p, if_pos (by omega), hdm]
    · rw [upd_other _ _ _ _ hjB, upd_other _ _ _ _ hjA]
      by_cases hreg : base ≤ j ∧ (j - base) % P ≤ p ∧ (j - base) / P < hh
      · have hdiv := Nat.div_add_mod (j - base) P
        have hj : j = base + P * ((j - base) / P) + (j - base) % P := by omega
        rw [hj, midBuf_at src orig p P hh b base count _ _ (by omega) (by omega) hreg.2.2,
          midBuf_at src orig p P hh b base (count + 1) _ _ (by omega) (by omega) hreg.2.2]
        by_cases hcc : (j - base) % P < p
        · rw [if_pos hcc, if_pos hcc]
          by_cases h1 : p * ((j - base) / P) + (j - base) % P < count
          · rw [if_pos h1, if_pos (by omega)]
          · by_cases h2 : p * ((j - base) / P) + (j - base) % P = count
            · exfalso
              have hdec := div_mod_decomp p ((j - base) / P) ((j - base) % P) hp hcc
              rw [h2] at hdec
              apply hjA
              rw [hj, hAdr, hdec.1, hdec.2]
            · by_cases h3 : p * ((j - base) / P) + (j - base) % P = count + 1 ∧ (count + 1) % p ≠ 0
              · exfalso
                have hdec := div_mod_decomp p ((j - base) / P) ((j - base) % P) hp hcc
                rw [h3.1] at hdec
                by_cases hsp : count % p + 1 < p
                · have hm1 : (count + 1) / p = count / p ∧ (count + 1) % p = count % p + 1 := by
                    have := div_mod_decomp p (count / p) (count % p + 1) hp hsp
                    rw [show p * (count / p) + (count % p + 1) = count + 1 by omega] at this
                    exact this
                  apply hjB
                  rw [hj, ← hdec.1, ← hdec.2, hm1.1, hm1.2, hAdr]
                  omega
                · have : (count + 1) % p = 0 := by
                    have h4 : count + 1 = p * (count / p) + p := by omega
                    have h5 : p * (count / p) + p = p * (count / p + 1) := by ring
                    rw [h4, h5, Nat.mul_mod_right]
                  exact h3.2 this
              · rw [if_neg h1, if_neg (fun hcon => h2 hcon.1), if_neg (by omega), if_neg h3]
        · have hccp : (j - base) % P = p := by omega
          rw [if_neg hcc, if_neg hcc]
          by_cases h4 : p * ((j - base) / P) + p ≤ count
          · rw [if_pos h4, if_pos (by omega)]
          · by_cases h5 : p * ((j - base) / P) + p = count + 1
            · exfalso
              have hdec := div_mod_decomp p ((j - base) / P) (p - 1) hp (by omega)
              rw [show p * ((j - base) / P) + (p - 1) = count by omega] at hdec
              apply hjB
              rw [hj, hAdr, hdec.1, hdec.2]
              omega
            · rw [if_neg h4, if_neg (by omega)]
      · rw [midBuf_out src orig p P hh b base count j hreg,
          midBuf_out src orig p P hh b base (count + 1) j hreg]

/-- The offset update at the end of a loop iteration lands on the
first-write target of the next iteration. -/
theorem adr_succ (p P base count : Nat) (hp : 0 < p) (hpP : p < P) :
    (if (count + 1) % p = 0 then (Adr p P base count + 1) + (P - p) else Adr p P base count + 1) =
    Adr p P base (count + 1) := by
  have hdm : p * (count / p) + count % p = count := Nat.div_add_mod count p
  have hc0p : count % p < p := Nat.mod_lt _ hp
  by_cases hz : (count + 1) % p = 0
  · rw [if_pos hz]
    have hfull : count % p + 1 = p := by
      by_contra hne
      have hsp : count % p + 1 < p := by omega
      have hm1 := div_mod_decomp p (count / p) (count % p + 1) hp hsp
      rw [show p * (count / p) + (count % p + 1) = count + 1 from by omega] at hm1
      omega
    have hdiv : (count + 1) / p = count / p + 1 := by
      have h4 : count + 1 = p * (count / p + 1) + 0 := by
        have : p * (count / p + 1) = p * (count / p) + p := by ring
        omega
      rw [h4, (div_mod_decomp p (count / p + 1) 0 hp hp).1]
    rw [Adr, Adr, hdiv, hz]
    have hP1 : P * (count / p + 1) = P * (count / p) + P := by ring
    omega
  · rw [if_neg hz]
    have hsp : count % p + 1 < p := by
      by_contra hge
      have h4 : count + 1 = p * (count / p) + p := by omega
      have h5 : p * (count / p) + p = p * (count / p + 1) := by ring
      exact hz (by rw [h4, h5, Nat.mul_mod_right])
    have hm1 := div_mod_decomp p (count / p) (count % p + 1) hp hsp
    rw [show p * (count / p) + (count % p + 1) = count + 1 from by omega] at hm1
    rw [Adr, Adr, hm1.1, hm1.2]
    omega

/-- The bitmap_copy loop, started on the closed form for `count`
processed bytes with `count + left = p * hh` iterations in total,
terminates in the closed form for the completed copy. -/
theorem copyLoop_midBuf (src orig : Nat → Nat) (p P hh b base : Nat)
    (hp : 0 < p) (hpP : p < P) :
    ∀ (left count : Nat), count + left = p * hh →
      copyLoop src p P b left (midBuf src orig p P hh b base count) (Adr p P base count) count =
      midBuf src orig p P hh b base (p * hh) := by
  intro left
  induction left with
  | zero =>
    intro count h
    rw [copyLoop, show count = p * hh from by omega]
  | succ n ih =>
    intro count h
    have hcount : count < p * hh := by omega
    have hstep := copyStep src orig p P hh b base count hp hpP hcount
    simp only [copyLoop]
    rw [hstep, adr_succ p P base count hp hpP]
    exact ih (count + 1) (by omega)

/-- Pixel-level reading of the completed copy, for a rectangle without
row padding (width exactly `8 * p`): inside the pasted rectangle the
destination shows the source pixels, outside it the original
destination pixels. -/
theorem midBuf_final_pixels (src orig : Nat → Nat) (p P hh b xmin ymin W : Nat)
    (hsrc : ∀ i, src i < 256)
    (hp : 0 < p) (hpP : p < P) (hh0 : 0 < hh)
    (hb : b = xmin % 8)
    (hfitx : xmin + 8 * p < W)
    (hWP : W ≤ 8 * P)
    (x y : Nat) (hx : x < W) :
    getPx (midBuf src orig p P hh b (ymin * P + xmin / 8) (p * hh)) P x y =
      if xmin ≤ x ∧ x < xmin + 8 * p ∧ ymin ≤ y ∧ y < ymin + hh then
        getPx src p (x - xmin) (y - ymin)
      else getPx orig P x y := by
  have hb8 : b < 8 := by omega
  have hxP : x / 8 < P := by omega
  have hB0 : xmin / 8 + p < P := by omega
  by_cases hybig : ymin + hh ≤ y
  · -- rows below the pasted region: the byte is untouched
    rw [if_neg (by omega), getPx, getPx]
    rw [midBuf_out]
    intro hreg
    by_cases hxl : x / 8 < xmin / 8
    · have hyP : y * P = ymin * P + P * (y - ymin - 1) + P := by
        have h1 : ymin * P + P * (y - ymin - 1) + P = P * (ymin + (y - ymin - 1) + 1) := by ring
        rw [h1, show ymin + (y - ymin - 1) + 1 = y from by omega, Nat.mul_comm]
      have hdec := div_mod_decomp P (y - ymin - 1) (P - (xmin / 8 - x / 8)) (by omega) (by omega)
      have hsub : y * P + x / 8 - (ymin * P + xmin / 8) =
          P * (y - ymin - 1) + (P - (xmin / 8 - x / 8)) := by omega
      rw [hsub, hdec.2] at hreg
      omega
    · have hyP : y * P = ymin * P + P * (y - ymin) := by
        rw [Nat.mul_comm ymin P, ← Nat.mul_add, show ymin + (y - ymin) = y from by omega,
          Nat.mul_comm]
      have hdec := div_mod_decomp P (y - ymin) (x / 8 - xmin / 8) (by omega) (by omega)
      have hsub : y * P + x / 8 - (ymin * P + xmin / 8) =
          P * (y - ymin) + (x / 8 - xmin / 8) := by omega
      rw [hsub, hdec.1] at hreg
      omega
  by_cases hyrow : ymin ≤ y
  swap
  · -- rows above the pasted region: the byte is untouched
    rw [if_neg (by omega), getPx, getPx]
    rw [midBuf_out]
    have hyP := Nat.mul_le_mul_right P (show y + 1 ≤ ymin from by omega)
    have hyP2 : (y + 1) * P = y * P + P := by ring
    intro hreg
    omega
  · by_cases hxleft : x / 8 < xmin / 8
    swap
    · by_cases hxright : xmin / 8 + p < x / 8
      · -- columns right of the pasted bytes: untouched
        rw [if_neg (by omega), getPx, getPx]
        rw [midBuf_out]
        have hyP : y * P = ymin * P + P * (y - ymin) := by
          rw [Nat.mul_comm ymin P, ← Nat.mul_add, show ymin + (y - ymin) = y from by omega,
            Nat.mul_comm]
        intro hreg
        have hdec := div_mod_decomp P (y - ymin) (x / 8 - xmin / 8) (by omega) (by omega)
        have hsub : y * P + x / 8 - (ymin * P + xmin / 8) = P * (y - ymin) + (x / 8 - xmin / 8) := by
          omega
        rw [hsub, hdec.2] at hreg
        omega
      · -- the byte holding this pixel lies in the pasted span
        have hyP : y * P = ymin * P + P * (y - ymin) := by
          rw [Nat.mul_comm ymin P, ← Nat.mul_add, show ymin + (y - ymin) = y from by omega,
            Nat.mul_comm]
        have hj : y * P + x / 8 = (ymin * P + xmin / 8) + P * (y - ymin) + (x / 8 - xmin / 8) := by
          omega
        have hrp : p * (y - ymin) + p ≤ p * hh := by
          have h1 := Nat.mul_le_mul_left p (show y - ymin + 1 ≤ hh from by omega)
          have h2 : p * (y - ymin + 1) = p * (y - ymin) + p := by ring
          omega
        rw [getPx, hj, midBuf_at src orig p P hh b _ _ _ _ (by omega) (by omega) (by omega)]
        have hcomm : (y - ymin) * p = p * (y - ymin) := Nat.mul_comm _ _
        by_cases hcp : x / 8 - xmin / 8 < p
        · -- a first-written byte
          rw [if_pos hcp, if_pos (by omega)]
          have hdeci := div_mod_decomp p (y - ymin) (x / 8 - xmin / 8) hp hcp
          by_cases hmb : b ≤ x % 8
          · -- pixel inside the rectangle, fed by the current source byte
            rw [if_pos (by omega), getPx]
            have hsx8 : (x - xmin) / 8 = x / 8 - xmin / 8 := by omega
            have hsxm : (x - xmin) % 8 = x % 8 - b := by omega
            rw [hsx8, hsxm, and1_eq_testBit, and1_eq_testBit]
            have hbit : (firstW src orig p P b (ymin * P + xmin / 8)
                (p * (y - ymin) + (x / 8 - xmin / 8))).testBit (7 - x % 8) =
                (src ((y - ymin) * p + (x / 8 - xmin / 8))).testBit (7 - (x % 8 - b)) := by
              rw [firstW, Nat.testBit_or, Nat.testBit_shiftRight, hcomm]
              have hidx : b + (7 - x % 8) = 7 - (x % 8 - b) := by omega
              rw [hidx]
              by_cases hc0 : (x / 8 - xmin / 8) = 0
              · rw [if_pos (by rw [hdeci.2]; exact hc0)]
                simp only [Nat.testBit_and, testBit_hiMask]
                have h1 : decide (7 - x % 8 < 8) = true := by simp; omega
                have h2 : decide (b + (7 - x % 8) < 8) = true := by simp; omega
                rw [h1, h2]
                simp
              · rw [if_neg (by rw [hdeci.2]; exact hc0)]
                simp only [Nat.testBit_and, Nat.testBit_shiftLeft]
                have h1 : decide (7 - x % 8 ≥ 8 - b) = false := by simp; omega
                rw [h1]
                simp
            rw [hbit]
          · -- pixel left of the rectangle start, or fed by the spill
            by_cases hc0 : (x / 8 - xmin / 8) = 0
            · -- first byte of the pasted span, bits before the origin:
              -- untouched destination bits
              rw [if_neg (by omega), getPx]
              have hAdrI : Adr p P (ymin * P + xmin / 8)
                  (p * (y - ymin) + (x / 8 - xmin / 8)) =
                  ymin * P + xmin / 8 + P * (y - ymin) + (x / 8 - xmin / 8) := by
                rw [Adr, hdeci.1, hdeci.2]
              rw [and1_eq_testBit, and1_eq_testBit]
              have hbit : (firstW src orig p P b (ymin * P + xmin / 8)
                  (p * (y - ymin) + (x / 8 - xmin / 8))).testBit (7 - x % 8) =
                  (orig (y * P + x / 8)).testBit (7 - x % 8) := by
                rw [firstW, Nat.testBit_or, Nat.testBit_shiftRight,
                  if_pos (by rw [hdeci.2]; exact hc0), hAdrI]
                rw [byte_testBit_high _ _ (hsrc _) (by omega)]
                simp only [Nat.testBit_and, testBit_hiMask, Bool.false_or]
                have h1 : decide (7 - x % 8 < 8) = true := by simp; omega
                have h2 : decide (b + (7 - x % 8) < 8) = false := by simp; omega
                rw [h1, h2, ← hj]
                simp
              rw [hbit]
            · -- interior byte, bits fed by the previous source byte's spill
              rw [if_pos (by omega), getPx]
              have hsx8 : (x - xmin) / 8 = x / 8 - xmin / 8 - 1 := by omega
              have hsxm : (x - xmin) % 8 = 8 + x % 8 - b := by omega
              rw [hsx8, hsxm, and1_eq_testBit, and1_eq_testBit]
              have hbit : (firstW src orig p P b (ymin * P + xmin / 8)
                  (p * (y - ymin) + (x / 8 - xmin / 8))).testBit (7 - x % 8) =
                  (src ((y - ymin) * p + (x / 8 - xmin / 8 - 1))).testBit
                    (7 - (8 + x % 8 - b)) := by
                rw [firstW, Nat.testBit_or, Nat.testBit_shiftRight,
                  if_neg (by rw [hdeci.2]; exact hc0)]
                rw [byte_testBit_high _ _ (hsrc _) (by omega)]
                simp only [Nat.testBit_and, Nat.testBit_shiftLeft, testBit_255, Bool.false_or]
                have h1 : decide (7 - x % 8 ≥ 8 - b) = true := by simp; omega
                have h2 : decide (7 - x % 8 < 8) = true := by simp; omega
                have h3 : p * (y - ymin) + (x / 8 - xmin / 8) - 1 =
                    (y - ymin) * p + (x / 8 - xmin / 8 - 1) := by omega
                have h4 : 7 - x % 8 - (8 - b) = 7 - (8 + x % 8 - b) := by omega
                rw [h1, h2, h3, h4]
                simp
              rw [hbit]
        · -- the spill byte after the pasted span of this row
          have hcp2 : x / 8 - xmin / 8 = p := by omega
          rw [if_neg hcp, if_pos (by omega)]
          by_cases hmb : b ≤ x % 8
          · -- bits past the rectangle end: untouched destination bits
            rw [if_neg (by omega), getPx]
            rw [and1_eq_testBit, and1_eq_testBit]
            have hbit : (spillW src orig p P b (ymin * P + xmin / 8)
                (y - ymin)).testBit (7 - x % 8) =
                (orig (y * P + x / 8)).testBit (7 - x % 8) := by
              rw [spillW, Nat.testBit_or]
              simp only [Nat.testBit_and, Nat.testBit_shiftLeft, testBit_255, testBit_loMask]
              have h1 : decide (7 - x % 8 ≥ 8 - b) = false := by simp; omega
              have h2 : decide (b + (7 - x % 8) < 8) = true := by simp; omega
              have h3 : ymin * P + xmin / 8 + P * (y - ymin) + p = y * P + x / 8 := by omega
              rw [h1, h2, h3]
              simp
            rw [hbit]
          · -- low-order rectangle bits spilled into this byte
            rw [if_pos (by omega), getPx]
            have hsx8 : (x - xmin) / 8 = p - 1 := by omega
            have hsxm : (x - xmin) % 8 = 8 + x % 8 - b := by omega
            rw [hsx8, hsxm, and1_eq_testBit, and1_eq_testBit]
            have hbit : (spillW src orig p P b (ymin * P + xmin / 8)
                (y - ymin)).testBit (7 - x % 8) =
                (src ((y - ymin) * p + (p - 1))).testBit (7 - (8 + x % 8 - b)) := by
              rw [spillW, Nat.testBit_or]
              simp only [Nat.testBit_and, Nat.testBit_shiftLeft, testBit_255, testBit_loMask]
              have h1 : decide (7 - x % 8 ≥ 8 - b) = true := by simp; omega
              have h2 : decide (b + (7 - x % 8) < 8) = false := by simp; omega
              have h3 : decide (7 - x % 8 < 8) = true := by simp; omega
              have h4 : p * (y - ymin) + p - 1 = (y - ymin) * p + (p - 1) := by omega
              have h5 : 7 - x % 8 - (8 - b) = 7 - (8 + x % 8 - b) := by omega
              rw [h1, h2, h3, h4, h5]
              simp
            rw [hbit]
    · -- columns left of the pasted bytes: untouched
      rw [if_neg (by omega), getPx, getPx]
      rw [midBuf_out]
      intro hreg
      by_cases hyeq : y = ymin
      · subst hyeq
        omega
      · have hyP : y * P = ymin * P + P * (y - ymin - 1) + P := by
          have h1 : ymin * P + P * (y - ymin - 1) + P = P * (ymin + (y - ymin - 1) + 1) := by ring
          rw [h1, show ymin + (y - ymin - 1) + 1 = y from by omega, Nat.mul_comm]
        have hdec := div_mod_decomp P (y - ymin - 1) (P - (xmin / 8 - x / 8)) (by omega)
          (by omega)
        have hsub : y * P + x / 8 - (ymin * P + xmin / 8) =
            P * (y - ymin - 1) + (P - (xmin / 8 - x / 8)) := by omega
        rw [hsub, hdec.2] at hreg
        omega

/-- Evaluation of bitmap_copy down to its loop when both validity
checks pass. -/
theorem bitmap_copy_run (outB inB : Nat → Nat) (L Pp W R p w xmin ymin : Nat)
    (hcb1 : ¬ (L = 0 ∨ Pp = 0 ∨ W = 0)) (hcb2 : ¬ (R = 0 ∨ p = 0 ∨ w = 0))
    (hfit : ¬ (xmin + w % 65536 ≥ W % 65536 ∨ ymin + R / p % 65536 ≥ L / Pp % 65536)) :
    bitmap_copy ⟨some outB, L, Pp, W⟩ ⟨some inB, R, p, w⟩ xmin ymin =
      .ok ⟨some (copyLoop inB p Pp (xmin % 8) R outB (xy_to_index Pp xmin ymin) 0), L, Pp, W⟩ := by
  have e1 : check_bitmap ⟨some outB, L, Pp, W⟩ = 0 := by
    simp only [check_bitmap]
    exact if_neg hcb1
  have e2 : check_bitmap ⟨some inB, R, p, w⟩ = 0 := by
    simp only [check_bitmap]
    exact if_neg hcb2
  simp only [bitmap_copy, e1, e2]
  rw [if_neg (by omega : ¬ ((0 : Nat) = 1 ∨ (0 : Nat) = 1)), if_neg hfit]

/-- Before the first iteration the closed form is the untouched
destination buffer. -/
theorem midBuf_zero (src orig : Nat → Nat) (p P hh b base : Nat) (hp : 0 < p) :
    midBuf src orig p P hh b base 0 = orig := by
  funext j
  simp only [midBuf, Nat.zero_mod, ne_eq, not_true_eq_false, and_false, if_false]
  split_ifs with h1 h2 h3 h4
  · exact absurd h3 (by omega)
  · rfl
  · exact absurd h4 (by omega)
  · rfl
  · rfl

/-- The loop starts writing at the blit origin byte. -/
theorem adr_zero (p P base : Nat) : Adr p P base 0 = base := by
  simp [Adr, Nat.zero_div, Nat.zero_mod]

/-- Claim C2 (amended): a blit at an x-origin with `xmin % 8 ≠ 0` that
passes the code's strict bounds check, whose source has no row padding
(width exactly `8 * p` bits, a multiple of 8), succeeds; every source
pixel appears at its translated position in the destination — each
source byte split across two adjacent destination bytes — and every
destination bit outside the pasted rectangle keeps the value it had
before the call. -/
theorem bitmap_copy_unaligned_blit
    (dstF srcF : Nat → Nat) (p P hh W H xmin ymin : Nat)
    (hsrc : ∀ i, srcF i < 256)
    (hp : 0 < p) (hh0 : 0 < hh) (hH0 : 0 < H)
    (hb0 : xmin % 8 ≠ 0)
    (hfitx : xmin + 8 * p < W)
    (hfity : ymin + hh < H)
    (hWP : W ≤ 8 * P)
    (hW16 : W < 65536) (hH16 : H < 65536) (hp16 : 8 * p < 65536) (hhh16 : hh < 65536) :
    bitmap_copy ⟨some dstF, P * H, P, W⟩ ⟨some srcF, p * hh, p, 8 * p⟩ xmin ymin =
      .ok ⟨some (midBuf srcF dstF p P hh (xmin % 8) (ymin * P + xmin / 8) (p * hh)),
           P * H, P, W⟩ ∧
    ∀ x y, x < W → y < H →
      getPx (midBuf srcF dstF p P hh (xmin % 8) (ymin * P + xmin / 8) (p * hh)) P x y =
        if xmin ≤ x ∧ x < xmin + 8 * p ∧ ymin ≤ y ∧ y < ymin + hh then
          getPx srcF p (x - xmin) (y - ymin)
        else getPx dstF P x y := by
  have hpP : p < P := by omega
  have hP0 : 0 < P := by omega
  constructor
  · have hPH : P * H ≠ 0 := Nat.mul_ne_zero (by omega) (by omega)
    have hphh : p * hh ≠ 0 := Nat.mul_ne_zero (by omega) (by omega)
    have hdiv1 : p * hh / p = hh := Nat.mul_div_cancel_left hh hp
    have hdiv2 : P * H / P = H := Nat.mul_div_cancel_left H hP0
    have hrun := bitmap_copy_run dstF srcF (P * H) P W (p * hh) p (8 * p) xmin ymin
      (by omega) (by omega)
      (by rw [hdiv1, hdiv2]; omega)
    rw [hrun]
    have hloop : copyLoop srcF p P (xmin % 8) (p * hh) dstF (xy_to_index P xmin ymin) 0 =
        midBuf srcF dstF p P hh (xmin % 8) (ymin * P + xmin / 8) (p * hh) := by
      have hxy : xy_to_index P xmin ymin = ymin * P + xmin / 8 := rfl
      rw [hxy]
      have hgen : ∀ (buf : Nat → Nat) (o : Nat),
          buf = midBuf srcF dstF p P hh (xmin % 8) (ymin * P + xmin / 8) 0 →
          o = Adr p P (ymin * P + xmin / 8) 0 →
          copyLoop srcF p P (xmin % 8) (p * hh) buf o 0 =
            midBuf srcF dstF p P hh (xmin % 8) (ymin * P + xmin / 8) (p * hh) := by
        intro buf o h1 h2
        rw [h1, h2]
        exact copyLoop_midBuf srcF dstF p P hh (xmin % 8) (ymin * P + xmin / 8) hp hpP
          (p * hh) 0 (by omega)
      exact hgen dstF (ymin * P + xmin / 8)
        (midBuf_zero srcF dstF p P hh (xmin % 8) (ymin * P + xmin / 8) hp).symm
        (adr_zero p P (ymin * P + xmin / 8)).symm
    rw [hloop]
  · intro x y hx _
    exact midBuf_final_pixels srcF dstF p P hh (xmin % 8) xmin ymin W hsrc hp hpP hh0 rfl
      hfitx hWP x y hx

/-- Claim C1: an equal-size blit at origin (0,0) satisfies the claim's
stated success condition (`x_origin + source.width ≤ dest.width` and the
height analogue, both with equality here), yet `bitmap_copy` rejects it
with return code 2 (out of range, errno EINVAL): the bounds check on
bitmap.c line 242 uses `>=` where fitting requires only `>`.  The claim's
promised byte-for-byte copy never happens. -/
theorem equal_size_blit_rejected :
    bitmap_copy c1Dst c1Src 0 0 = .err 2 ∧
    0 + c1Src.row_px ≤ c1Dst.row_px ∧
    0 + c1Src.length / c1Src.pitch ≤ c1Dst.length / c1Dst.pitch :=
  ⟨rfl, by decide, by decide⟩

/-- Claim C3: setting the pixel (0,0) to white under the black=1
convention routes to px_unset, whose `*byte &= !bit_mask` uses a logical
negation: the whole byte 0xFF becomes 0x00.  Bit 0 of the byte is not
the touched bit (`x_to_bitmask 0 = 128`, bit 7), yet it changes from 1
to 0, so the operation does not modify only the single claimed bit. -/
theorem px_unset_clears_whole_byte :
    (okBuf (bitmap_modify_px c3Fb 0 0 .SET_PIXEL_WHITE 1)).map (fun f => f 0) = some 0 ∧
    x_to_bitmask 0 = 128 ∧
    Nat.testBit 255 0 = true ∧ Nat.testBit 0 0 = false :=
  ⟨rfl, rfl, rfl, rfl⟩

/-- Claim C2 (counterexample): blitting the 3-px-wide source into the
all-black destination at origin (3, 0) changes pixel (6, 0) from black
to white, although that pixel lies outside the pasted 3 x 1 rectangle
(columns 3..5): the loop copies the source's full pitch byte, row
padding included, so the padding columns of the destination are
overwritten. -/
theorem blit_disturbs_bits_outside_rectangle :
    (okBuf (bitmap_copy c2Dst c2Src 3 0)).map (fun g => getPx g 2 6 0) = some 0 ∧
    getPx (fun _ => 255) 2 6 0 = 1 ∧
    ¬ (3 ≤ 6 ∧ 6 < 3 + c2Src.row_px) ∧
    6 < c2Dst.row_px ∧ (3 : Nat) % 8 ≠ 0 :=
  ⟨rfl, rfl, by decide, by decide, by decide⟩

/-- Witness for the amended claim C2: a 8 x 1 px source with byte 0xA5
blitted into a 16 x 3 px all-black destination at origin (3, 0). -/
theorem bitmap_copy_unaligned_blit_witness :
    bitmap_copy ⟨some (fun _ => 255), 2 * 3, 2, 16⟩ ⟨some (fun _ => 165), 1 * 1, 1, 8 * 1⟩ 3 0 =
      .ok ⟨some (midBuf (fun _ => 165) (fun _ => 255) 1 2 1 (3 % 8) (0 * 2 + 3 / 8) (1 * 1)),
           2 * 3, 2, 16⟩ ∧
    ∀ x y, x < 16 → y < 3 →
      getPx (midBuf (fun _ => 165) (fun _ => 255) 1 2 1 (3 % 8) (0 * 2 + 3 / 8) (1 * 1)) 2 x y =
        if 3 ≤ x ∧ x < 3 + 8 * 1 ∧ 0 ≤ y ∧ y < 0 + 1 then
          getPx (fun _ => 165) 1 (x - 3) (y - 0)
        else getPx (fun _ => 255) 2 x y :=
  bitmap_copy_unaligned_blit (fun _ => 255) (fun _ => 165) 1 2 1 16 3 3 0
    (fun _ => Nat.lt_of_sub_eq_succ rfl) (by decide) (by decide) (by decide) (by decide)
    (by decide) (by decide) (by decide) (by decide) (by decide) (by decide) (by decide)

/-- Claim C9 (counterexample): the bitmap freshly produced by
`bitmap_create 16 2` has its metrics set and a NULL buffer; a pixel
modification on it passes `check_bitmap` (which never inspects the
buffer pointer) and reaches the dereference of the NULL buffer instead
of returning the critical-buffer error 1. -/
theorem create_null_buffer_op_derefs :
    bitmap_create 16 2 = .ok freshFb ∧
    bitmap_modify_px freshFb 0 0 .SET_PIXEL_BLACK 1 = .nullDeref ∧
    bitmap_modify_px freshFb 0 0 .SET_PIXEL_BLACK 1 ≠ .err 1 :=
  ⟨rfl, rfl, fun h => by rw [show bitmap_modify_px freshFb 0 0 .SET_PIXEL_BLACK 1 = .nullDeref from rfl] at h; exact CResult.noConfusion h⟩

/-- Claim C9 (amended): operations fail with the critical-buffer error
exactly when a numeric metric of the bitmap is zero (`check_bitmap`);
the buffer pointer itself is never checked, so on a bitmap whose metrics
are non-zero but whose buffer is NULL every operation proceeds to
dereference the NULL buffer. -/
theorem uninitialised_check_misses_null_buffer
    (bmp rect : BITMAP) (x y xmin ymin : Nat) (mode : SET_PIXEL_MODE) (pc : Int) :
    (check_bitmap bmp = 1 →
        bitmap_modify_px bmp x y mode pc = .err 1 ∧
        bitmap_clear bmp 1 = .err 2 ∧
        bitmap_copy bmp rect xmin ymin = .err 1) ∧
    (bmp.buffer = none → check_bitmap bmp = 0 →
        x < bmp.row_px → y < bmp.length / bmp.pitch →
        bitmap_modify_px bmp x y mode pc = .nullDeref) ∧
    (bmp.buffer = none → check_bitmap bmp = 0 →
        bitmap_clear bmp 1 = .nullDeref) ∧
    (bmp.buffer = none → check_bitmap bmp = 0 → check_bitmap rect = 0 →
        xmin + rect.row_px % 65536 < bmp.row_px % 65536 →
        ymin + rect.length / rect.pitch % 65536 < bmp.length / bmp.pitch % 65536 →
        bitmap_copy bmp rect xmin ymin = .nullDeref) := by
  refine ⟨fun h1 => ⟨?_, ?_, ?_⟩, fun hb h0 hx hy => ?_, fun hb h0 => ?_, fun hb h0 hr hfx hfy => ?_⟩
  · simp [bitmap_modify_px, h1]
  · simp [bitmap_clear, h1]
  · simp [bitmap_copy, h1]
  · simp only [bitmap_modify_px, h0, check_coordinates, hb]
    have hcond : ¬ (x ≥ bmp.row_px ∨ y ≥ bmp.length / bmp.pitch) := by omega
    simp [hcond]
  · simp [bitmap_clear, h0, hb]
  · simp only [bitmap_copy, h0, hr, hb]
    have hcond : ¬ (xmin + rect.row_px % 65536 ≥ bmp.row_px % 65536 ∨
        ymin + rect.length / rect.pitch % 65536 ≥ bmp.length / bmp.pitch % 65536) := by omega
    simp [hcond]

/-- Witness for the amended claim C9, instantiated at `freshFb` (both as
the null-buffer bitmap and, with zeroed metrics, as the invalid one). -/
theorem uninitialised_check_misses_null_buffer_witness :
    bitmap_modify_px freshFb 0 0 .SET_PIXEL_TOGGLE 1 = .nullDeref ∧
    bitmap_clear freshFb 1 = .nullDeref ∧
    bitmap_modify_px ⟨none, 0, 0, 0⟩ 0 0 .SET_PIXEL_TOGGLE 1 = .err 1 := by
  refine ⟨?_, ?_, ?_⟩
  · exact (uninitialised_check_misses_null_buffer freshFb freshFb 0 0 0 0 .SET_PIXEL_TOGGLE 1).2.1
      rfl rfl (by decide) (by decide)
  · exact (uninitialised_check_misses_null_buffer freshFb freshFb 0 0 0 0 .SET_PIXEL_TOGGLE 1).2.2.1
      rfl rfl
  · exact ((uninitialised_check_misses_null_buffer ⟨none, 0, 0, 0⟩ freshFb 0 0 0 0 .SET_PIXEL_TOGGLE 1).1 rfl).1

end Bitmap

namespace Utf8

/-- Claim C5: on a lone continuation byte 0x80 (an invalid lead byte)
`utf8_ftocp` returns the positive hard error ERR_INVALID_UTF8 = 8 and
leaves `*out` untouched: `ftoutf8` signals the invalid lead byte with an
error greater than 0, which `utf8_ftocp` propagates before ever reaching
the replacement-character arm of `utf8tocp`, so no U+FFFD is produced
and no WARN_REPLACEMENT_CHAR warning is returned. -/
theorem utf8_invalid_lead_is_hard_error (o : Nat) :
    utf8_ftocp ⟨[0x80], false⟩ o = (ERR_INVALID_UTF8, o, ⟨[], false⟩) ∧
    0 < ERR_INVALID_UTF8 ∧
    ERR_INVALID_UTF8 ≠ WARN_REPLACEMENT_CHAR :=
  ⟨rfl, by decide, by decide⟩

/-- Claim C6: on the empty stream (end of stream at a sequence
boundary) and on the stream `[0xC3]` (end of stream after a valid
two-byte lead), `utf8_ftocp` returns the same value 1 = ERR_INPUT in
both cases: `file_read`'s `check_eof(src) || ERR_IO` is a C logical OR
that evaluates to 1 on every short read, so the EndOfFile outcome
(WARN_EOF = -4) and the IO error (ERR_IO = 4) are both collapsed to the
indistinguishable hard error 1. -/
theorem utf8_eof_and_truncation_collapsed (o o' : Nat) :
    utf8_ftocp ⟨[], false⟩ o = (ERR_INPUT, o, ⟨[], true⟩) ∧
    utf8_ftocp ⟨[0xC3], false⟩ o' = (ERR_INPUT, o', ⟨[], true⟩) ∧
    ERR_INPUT ≠ WARN_EOF ∧ ERR_INPUT ≠ errIoCode :=
  ⟨rfl, rfl, by decide, by decide⟩

end Utf8

namespace Cpq

/-- Claim C10: enqueuing a single codepoint and dequeuing it leaves
`count = 0` and `head = NULL`, but `tail` still holds the address 0 of
the detached node: the statement `cpq->tail == NULL;` in cpq_dequeue is
an effect-free comparison where an assignment was intended, so the
claimed invariant (tail is null whenever count is zero) fails. -/
theorem dequeue_last_leaves_dangling_tail :
    qAfterRoundTrip = some ⟨0, none, some 0⟩ ∧
    (some 0 : Option Nat) ≠ none := by
  exact ⟨rfl, by decide⟩

end Cpq

namespace Cache

/-- Claim C7: inserting codepoint 65 into a freshly created cache finds
its bucket (bucket `hash 65 = 1`) with a NULL tail, and lenqueue's
unconditional `in->tail->next = newtail` dereferences that NULL pointer:
the insert crashes instead of succeeding, so the claimed
insert-then-lookup round trip fails on an empty bucket.  Lookup of a
never-inserted codepoint does return "not found". -/
theorem cache_insert_empty_bucket_null_deref :
    cache_insert emptyGHeap (cache_create 1 12) 65 7 = none ∧
    (cache_create 1 12).table (hash 65) = ⟨none, none⟩ ∧
    cache_search emptyGHeap (cache_create 1 12) 65 = none :=
  ⟨rfl, rfl, rfl⟩

/-- Helper for claim C8: the ldestroy loop guard tests the never-null
list pointer, so no amount of fuel reaches the loop exit. -/
theorem ldestroyFuel_none (fuel : Nat) : ∀ s, ldestroyFuel fuel s = none := by
  induction fuel with
  | zero => intro s; rfl
  | succ n ih =>
    intro s
    simp only [ldestroyFuel, nullptrScan, OK]
    exact ih _

/-- Claim C8: cache_destroy never terminates, whatever the cache
contents: on the very first bucket the ldestroy while loop repeats
`!nullptr(delete)` on the address of the bucket list itself — never
NULL — so the loop condition never becomes false and the sweep over the
255 buckets cannot complete for any iteration budget. -/
theorem cache_destroy_never_returns (fuel : Nat) (hp : GHEAP) (c : CACHE) :
    cache_destroy fuel hp c = none := by
  have h : List.range TABLE_SIZE = 0 :: (List.range 254).map Nat.succ := by
    rw [show TABLE_SIZE = 254 + 1 from rfl, List.range_succ_eq_map]
  rw [cache_destroy, h]
  have h2 : destroyBuckets fuel hp c (0 :: (List.range 254).map Nat.succ) =
      (ldestroyFuel fuel (hp, c.table 0)).bind fun s =>
        destroyBuckets fuel s.1
          { c with table := fun j => if j = 0 then s.2 else c.table j }
          ((List.range 254).map Nat.succ) := rfl
  rw [h2, ldestroyFuel_none fuel]
  rfl

end Cache

namespace Epd

theorem listMapCongr {α β : Type} (l : List α) (f g : α → β)
    (h : ∀ a ∈ l, f a = g a) : l.map f = l.map g := by
  induction l with
  | nil => rfl
  | cons x xs ih =>
    simp only [List.map_cons, h x (by simp)]
    rw [ih fun a ha => h a (by simp [ha])]

theorem listFlatMapCongr {α β : Type} (l : List α) (f g : α → List β)
    (h : ∀ a ∈ l, f a = g a) : l.flatMap f = l.flatMap g := by
  induction l with
  | nil => rfl
  | cons x xs ih =>
    simp only [List.flatMap_cons, h x (by simp)]
    rw [ih fun a ha => h a (by simp [ha])]

theorem ramWriteBytes_eq (bm : List Nat) :
    ∀ (k idx : Nat), ramWriteBytes bm idx k =
      (List.range k).map fun x => .data [invByte (bm.getD (idx + x) 0)] := by
  intro k
  induction k with
  | zero => intro idx; rfl
  | succ n ih =>
    intro idx
    rw [ramWriteBytes, List.range_succ_eq_map, List.map_cons, ih (idx + 1), List.map_map]
    simp only [write_data, List.cons_append, List.nil_append, Nat.add_zero]
    congr 1
    apply listMapCongr
    intro a _
    have h2 : idx + 1 + a = idx + (a + 1) := by omega
    simp only [Function.comp_apply, h2]

theorem ramWriteRows_eq (bm : List Nat) (pitch : Nat) :
    ∀ (rows y : Nat), ramWriteRows bm pitch (y * pitch) y rows =
      (List.range rows).flatMap fun i => rowTrace bm pitch (y + i) := by
  intro rows
  induction rows with
  | zero => intro y; rfl
  | succ n ih =>
    intro y
    rw [ramWriteRows, List.range_succ_eq_map, List.flatMap_cons]
    have h1 : y * pitch + pitch = (y + 1) * pitch := by ring
    rw [h1, ih (y + 1), List.flatMap_map]
    rw [ramWriteBytes_eq bm pitch (y * pitch)]
    have h3 : ((List.range n).flatMap fun i => rowTrace bm pitch (y + 1 + i)) =
        (List.range n).flatMap fun a => rowTrace bm pitch (y + a.succ) := by
      apply listFlatMapCongr
      intro a _
      have h4 : y + 1 + a = y + a.succ := by omega
      rw [h4]
    rw [h3]
    simp only [rowTrace, Nat.add_zero, List.append_assoc]

/-- Claim C4: for a bitmap of length exactly `pitch(width) * height`
the display operation accepts it and produces, row by row, the cursor
move to `(0, row)`, the write-RAM command, and the row's `pitch` bytes
each with all eight bits inverted (followed by the refresh sequence);
for a bitmap of any other length it fails with ERR_INPUT = 1
(InvalidInput, errno EINVAL) and performs no transfer at all. -/
theorem epd_display_streams_inverted_rows (epd : EPD) (bm : List Nat) :
    (bm.length = calculate_pitch epd.width * epd.height →
      epd_display epd bm =
        (OK, displayTrace bm (calculate_pitch epd.width) epd.height ++ ram_load)) ∧
    (bm.length ≠ calculate_pitch epd.width * epd.height →
      epd_display epd bm = (ERR_INPUT, [])) := by
  constructor
  · intro h
    rw [epd_display]
    simp only [h, ne_eq, not_true_eq_false, if_false, if_neg (by omega : ¬ calculate_pitch epd.width * epd.height ≠ calculate_pitch epd.width * epd.height)]
    have h0 : ram_write bm epd.width epd.height = displayTrace bm (calculate_pitch epd.width) epd.height := by
      have h1 := ramWriteRows_eq bm (calculate_pitch epd.width) epd.height 0
      rw [Nat.zero_mul] at h1
      rw [ram_write, h1]
      simp [displayTrace]
    rw [h0]
  · intro h
    rw [epd_display]
    simp only [if_pos h]

/-- Witness for claim C4 at a concrete 8 x 2 px device: the bitmap
`[0x0F, 0xAA]` has the right length 2, is accepted, and is streamed
with bytes inverted to 0xF0 and 0x55. -/
theorem epd_display_streams_inverted_rows_witness :
    (([0x0F, 0xAA] : List Nat).length = calculate_pitch 8 * 2) ∧
    epd_display ⟨8, 2⟩ [0x0F, 0xAA] =
      (OK, displayTrace [0x0F, 0xAA] (calculate_pitch 8) 2 ++ ram_load) ∧
    epd_display ⟨8, 2⟩ [0x0F] = (ERR_INPUT, []) := by
  refine ⟨by decide, ?_, ?_⟩
  · exact (epd_display_streams_inverted_rows ⟨8, 2⟩ [0x0F, 0xAA]).1 (by decide)
  · exact (epd_display_streams_inverted_rows ⟨8, 2⟩ [0x0F]).2 (by decide)

end Epd

end Oku
